import Mathlib

/-!
Shallow embedding of the core search engine of the Target Value Finder
(`src/app.py`): the four operation strategies (`find_subset_sum`,
`find_subset_difference`, `find_subset_product`, `find_subset_quotient`),
value-based reconstruction (`reconstruct_items`) and the multi-target
orchestrator (`find_subsets`).  Numeric values are modelled as rationals;
Python's `math.isclose` (which raises `ValueError` on a negative relative
tolerance) is modelled in the `Except` monad.
-/

/-- One tagged numeric observation: `{"value": ..., "column": ..., "row": ...}`. -/
structure Item where
  value : ℚ
  column : String
  row : ℕ
deriving DecidableEq

/-- The four operations dispatched by `find_subsets`. -/
inductive Op
  | sum
  | product
  | difference
  | quotient
deriving DecidableEq

/-- Python `abs` on a rational value. -/
def rabs (x : ℚ) : ℚ := if x < 0 then -x else x

/-- Python `max` of two rational values. -/
def rmax (x y : ℚ) : ℚ := if x ≤ y then y else x

/-- `itertools.combinations(l, 2)` over a list, in Python's enumeration
order: all pairs whose first component occurs (strictly) earlier. -/
def pairsList {α : Type} : List α → List (α × α)
  | [] => []
  | x :: xs => (xs.map fun y => (x, y)) ++ pairsList xs

/-- `itertools.combinations(l, 3)` in Python's enumeration order. -/
def triplesList {α : Type} : List α → List (α × α × α)
  | [] => []
  | x :: xs => ((pairsList xs).map fun q => (x, q.1, q.2)) ++ triplesList xs

/-- Remove the first occurrence of `v` (Python `list.remove`). -/
def removeFirst (v : ℚ) : List ℚ → List ℚ
  | [] => []
  | x :: xs => if x = v then xs else x :: removeFirst v xs

/-- The scanning loop of `reconstruct_items`: walk the store, consuming an
item whenever its value is still wanted; succeed as soon as nothing remains
wanted, fail if the store runs out first. -/
def reconGo : List Item → List ℚ → List Item → Option (List Item)
  | [], _, _ => none
  | it :: rest, remaining, acc =>
    if it.value ∈ remaining then
      (if (removeFirst it.value remaining).isEmpty then some (acc ++ [it])
       else reconGo rest (removeFirst it.value remaining) (acc ++ [it]))
    else reconGo rest remaining acc

/-- `reconstruct_items(full_data, values)`: map bare values back to items. -/
def reconstruct_items (full_data : List Item) (values : List ℚ) : Option (List Item) :=
  reconGo full_data values []

/-- Sum of the values of a list of items. -/
def sumVals (l : List Item) : ℚ := (l.map Item.value).sum

/-- Product of the values of a list of items. -/
def prodVals (l : List Item) : ℚ := (l.map Item.value).prod

/-- `any(key == q for key in dp)` over the association-list model of the
Python dict `dp`. -/
def isKey (q : ℚ) (dp : List (ℚ × List Item)) : Bool :=
  dp.any fun e => decide (e.1 = q)

/-- The inner loop of `find_subset_sum`: iterate over the snapshot
`list(dp.keys())`, either returning a matching subset (`Sum.inl`) or the
dict extended with the newly reachable sums (`Sum.inr`). -/
def sumInner (target tol : ℚ) (it : Item) :
    List (ℚ × List Item) → List (ℚ × List Item) → List Item ⊕ List (ℚ × List Item)
  | [], dp => Sum.inr dp
  | (s, lst) :: snap, dp =>
    if rabs (s + it.value - target) ≤ tol then Sum.inl (lst ++ [it])
    else if isKey (s + it.value) dp then sumInner target tol it snap dp
    else sumInner target tol it snap (dp ++ [(s + it.value, lst ++ [it])])

/-- The outer loop of `find_subset_sum` over the items of the store. -/
def sumLoop (target tol : ℚ) : List Item → List (ℚ × List Item) → Option (List Item)
  | [], _ => none
  | it :: rest, dp =>
    match sumInner target tol it dp dp with
    | Sum.inl res => some res
    | Sum.inr dp2 => sumLoop target tol rest dp2

/-- `find_subset_sum(data, target, tolerance)`: dict-based subset-sum
search, `dp = {0: []}` initially. -/
def find_subset_sum (data : List Item) (target tol : ℚ) : Option (List Item) :=
  sumLoop target tol data [(0, [])]

/-- The acceptance test of `find_subset_difference`. -/
def dpred (target tol : ℚ) (q : ℚ × ℚ) : Bool :=
  decide (rabs (rabs (q.1 - q.2) - target) ≤ tol)

/-- The pair loop of `find_subset_difference`. -/
def diffGo (data : List Item) (target tol : ℚ) : List (ℚ × ℚ) → Option (List Item)
  | [] => none
  | q :: rest =>
    if dpred target tol q then reconstruct_items data [q.1, q.2]
    else diffGo data target tol rest

/-- `find_subset_difference(data, target, tolerance)`. -/
def find_subset_difference (data : List Item) (target tol : ℚ) : Option (List Item) :=
  diffGo data target tol (pairsList (data.map Item.value))

/-- The zero-filtered item list used by product and quotient search. -/
def nonzeroItems (data : List Item) : List Item :=
  data.filter fun it => it.value ≠ 0

/-- `[item["value"] for item in data if item["value"] != 0]`. -/
def nonzeroValues (data : List Item) : List ℚ :=
  (nonzeroItems data).map Item.value

/-- The pair acceptance test of `find_subset_product`. -/
def ppred (target tol : ℚ) (q : ℚ × ℚ) : Bool :=
  decide (rabs (q.1 * q.2 - target) ≤ tol * target)

/-- The triplet acceptance test of `find_subset_product`. -/
def ppred3 (target tol : ℚ) (q : ℚ × ℚ × ℚ) : Bool :=
  decide (rabs (q.1 * q.2.1 * q.2.2 - target) ≤ tol * target)

/-- The pair loop of `find_subset_product`; `some r` means the loop
returned `r` (the Python `return reconstruct_items(...)`), `none` means it
fell through to the triplet loop. -/
def prodPairsGo (data : List Item) (target tol : ℚ) :
    List (ℚ × ℚ) → Option (Option (List Item))
  | [] => none
  | q :: rest =>
    if ppred target tol q then some (reconstruct_items data [q.1, q.2])
    else prodPairsGo data target tol rest

/-- The triplet loop of `find_subset_product`. -/
def prodTriplesGo (data : List Item) (target tol : ℚ) :
    List (ℚ × ℚ × ℚ) → Option (Option (List Item))
  | [] => none
  | q :: rest =>
    if ppred3 target tol q then some (reconstruct_items data [q.1, q.2.1, q.2.2])
    else prodTriplesGo data target tol rest

/-- `find_subset_product(data, target, tolerance)`: zero values excluded,
pairs searched before triplets, reconstruction against the full store. -/
def find_subset_product (data : List Item) (target tol : ℚ) : Option (List Item) :=
  match prodPairsGo data target tol (pairsList (nonzeroValues data)) with
  | some r => r
  | none =>
    match prodTriplesGo data target tol (triplesList (nonzeroValues data)) with
    | some r => r
    | none => none

/-- `math.isclose(a, b, rel_tol=rel_tol)` with the default `abs_tol = 0`:
raises `ValueError` ("tolerances must be non-negative") when the relative
tolerance is negative, otherwise tests `|a - b| <= rel_tol * max(|a|, |b|)`. -/
def isclose (a b rel_tol : ℚ) : Except Unit Bool :=
  if rel_tol < 0 then Except.error ()
  else Except.ok (decide (rabs (a - b) ≤ rel_tol * rmax (rabs a) (rabs b)))

/-- The combined acceptance test of `find_subset_quotient` when the
tolerance is non-negative: `a / b` or `b / a` close to the target. -/
def qpred (target tol : ℚ) (q : ℚ × ℚ) : Bool :=
  decide (rabs (q.1 / q.2 - target) ≤ tol * rmax (rabs (q.1 / q.2)) (rabs target)) ||
  decide (rabs (q.2 / q.1 - target) ≤ tol * rmax (rabs (q.2 / q.1)) (rabs target))

/-- The pair loop of `find_subset_quotient`, in the `Except` monad because
`math.isclose` can raise. -/
def quotGo (fdata : List Item) (target tol : ℚ) :
    List (ℚ × ℚ) → Except Unit (Option (List Item))
  | [] => Except.ok none
  | q :: rest =>
    match isclose (q.1 / q.2) target tol with
    | Except.error e => Except.error e
    | Except.ok true => Except.ok (reconstruct_items fdata [q.1, q.2])
    | Except.ok false =>
      match isclose (q.2 / q.1) target tol with
      | Except.error e => Except.error e
      | Except.ok true => Except.ok (reconstruct_items fdata [q.1, q.2])
      | Except.ok false => quotGo fdata target tol rest

/-- `find_subset_quotient(data, target, tolerance)`: zero-valued items are
filtered out first, and reconstruction runs against the filtered list. -/
def find_subset_quotient (data : List Item) (target tol : ℚ) :
    Except Unit (Option (List Item)) :=
  quotGo (nonzeroItems data) target tol (pairsList ((nonzeroItems data).map Item.value))

/-- The per-target strategy dispatch inside `find_subsets`. -/
def runOp (data : List Item) (op : Op) (target tol : ℚ) : Except Unit (Option (List Item)) :=
  match op with
  | Op.sum => Except.ok (find_subset_sum data target tol)
  | Op.product => Except.ok (find_subset_product data target tol)
  | Op.difference => Except.ok (find_subset_difference data target tol)
  | Op.quotient => find_subset_quotient data target tol

/-- Python truthiness of the value bound to `subset` (`None` and the empty
list are falsy). -/
def truthy : Option (List Item) → Bool
  | none => false
  | some l => !l.isEmpty

/-- `find_subsets(data, targets, operation, tolerance)`: one strategy call
per target in order, keeping `(target, subset)` only when `subset` is
truthy; an exception raised by a strategy aborts the whole search. -/
def find_subsets (data : List Item) : List ℚ → Op → ℚ → Except Unit (List (ℚ × List Item))
  | [], _, _ => Except.ok []
  | t :: ts, op, tol =>
    match runOp data op t tol with
    | Except.error e => Except.error e
    | Except.ok subset =>
      match find_subsets data ts op tol with
      | Except.error e => Except.error e
      | Except.ok rest =>
        Except.ok (if truthy subset then (t, subset.getD []) :: rest else rest)

/-- The value list each strategy hands to `reconstruct_items`, read off
from the first satisfied acceptance test in enumeration order (`Op.sum`
never calls reconstruction; a quotient search with a negative tolerance
raises before reconstructing). -/
def handed (data : List Item) (target tol : ℚ) : Op → Option (List ℚ)
  | Op.sum => none
  | Op.difference =>
    ((pairsList (data.map Item.value)).find? (dpred target tol)).map fun q => [q.1, q.2]
  | Op.product =>
    match (pairsList (nonzeroValues data)).find? (ppred target tol) with
    | some q => some [q.1, q.2]
    | none =>
      ((triplesList (nonzeroValues data)).find? (ppred3 target tol)).map
        fun q => [q.1, q.2.1, q.2.2]
  | Op.quotient =>
    if tol < 0 then none
    else
      ((pairsList ((nonzeroItems data).map Item.value)).find? (qpred target tol)).map
        fun q => [q.1, q.2]

/-- The store each strategy passes to `reconstruct_items` as `full_data`:
the quotient search passes the zero-filtered list, the others the full
store. -/
def reconTarget (data : List Item) : Op → List Item
  | Op.quotient => nonzeroItems data
  | _ => data

/-! ### Enumeration lemmas -/

lemma pairsList_mem {α : Type} {l : List α} {q : α × α} (h : q ∈ pairsList l) :
    q.1 ∈ l ∧ q.2 ∈ l := by
  induction l with
  | nil => simp [pairsList] at h
  | cons x xs ih =>
    simp only [pairsList, List.mem_append, List.mem_map] at h
    rcases h with ⟨y, hy, rfl⟩ | h
    · exact ⟨List.mem_cons_self _ _, List.mem_cons_of_mem _ hy⟩
    · rcases ih h with ⟨h1, h2⟩
      exact ⟨List.mem_cons_of_mem _ h1, List.mem_cons_of_mem _ h2⟩

lemma pairsList_mem_of_mem {α : Type} {x y : α} {xs : List α} (hy : y ∈ xs) :
    (x, y) ∈ pairsList (x :: xs) := by
  simp only [pairsList, List.mem_append, List.mem_map]
  exact Or.inl ⟨y, hy, rfl⟩

lemma pairsList_subset_cons {α : Type} {x : α} {xs : List α} {q : α × α}
    (h : q ∈ pairsList xs) : q ∈ pairsList (x :: xs) := by
  simp only [pairsList, List.mem_append]
  exact Or.inr h

lemma triplesList_pairs {α : Type} {l : List α} {q : α × α × α} (h : q ∈ triplesList l) :
    (q.1, q.2.1) ∈ pairsList l ∧ (q.1, q.2.2) ∈ pairsList l ∧
      (q.2.1, q.2.2) ∈ pairsList l := by
  induction l with
  | nil => simp [triplesList] at h
  | cons x xs ih =>
    simp only [triplesList, List.mem_append, List.mem_map] at h
    rcases h with ⟨r, hr, rfl⟩ | h
    · rcases pairsList_mem hr with ⟨h1, h2⟩
      exact ⟨pairsList_mem_of_mem h1, pairsList_mem_of_mem h2, pairsList_subset_cons hr⟩
    · rcases ih h with ⟨h1, h2, h3⟩
      exact ⟨pairsList_subset_cons h1, pairsList_subset_cons h2, pairsList_subset_cons h3⟩

lemma pairsList_length {α : Type} (l : List α) :
    2 * (pairsList l).length = l.length * (l.length - 1) := by
  induction l with
  | nil => rfl
  | cons x xs ih =>
    simp only [pairsList, List.length_append, List.length_map, List.length_cons,
      Nat.add_sub_cancel]
    cases hx : xs.length with
    | zero =>
      rw [hx] at ih
      simp only [Nat.zero_sub, Nat.mul_zero] at ih
      omega
    | succ m =>
      rw [hx] at ih
      simp only [Nat.succ_sub_one] at ih
      nlinarith [ih]

/-! ### removeFirst lemmas -/

lemma removeFirst_mem {v x : ℚ} : ∀ {l : List ℚ}, x ∈ removeFirst v l → x ∈ l := by
  intro l
  induction l with
  | nil => simp [removeFirst]
  | cons y ys ih =>
    simp only [removeFirst]
    by_cases hy : y = v
    · rw [if_pos hy]
      exact fun h => List.mem_cons_of_mem _ h
    · rw [if_neg hy]
      intro h
      rcases List.mem_cons.mp h with h | h
      · exact h ▸ List.mem_cons_self _ _
      · exact List.mem_cons_of_mem _ (ih h)

lemma removeFirst_perm {v : ℚ} : ∀ {l : List ℚ}, v ∈ l →
    List.Perm (v :: removeFirst v l) l := by
  intro l
  induction l with
  | nil => simp
  | cons y ys ih =>
    intro hv
    simp only [removeFirst]
    by_cases hy : y = v
    · rw [if_pos hy]
      subst hy
      exact List.Perm.refl _
    · rw [if_neg hy]
      have hv' : v ∈ ys := by
        rcases List.mem_cons.mp hv with h | h
        · exact absurd h.symm hy
        · exact h
      exact List.Perm.trans (List.Perm.swap y v _) (List.Perm.cons y (ih hv'))

lemma removeFirst_eq_nil {v : ℚ} : ∀ {l : List ℚ}, v ∈ l → removeFirst v l = [] →
    l = [v] := by
  intro l
  induction l with
  | nil => simp
  | cons y ys _ =>
    intro hv h
    simp only [removeFirst] at h
    by_cases hy : y = v
    · rw [if_pos hy] at h
      rw [hy, h]
    · rw [if_neg hy] at h
      exact absurd h (List.cons_ne_nil _ _)

/-! ### Reconstruction lemmas -/

lemma reconGo_mem : ∀ (data : List Item) (rem : List ℚ) (acc res : List Item),
    reconGo data rem acc = some res → ∀ x ∈ res, x ∈ acc ∨ x ∈ data := by
  intro data
  induction data with
  | nil => intro rem acc res h; simp [reconGo] at h
  | cons it rest ih =>
    intro rem acc res h x hx
    simp only [reconGo] at h
    by_cases hm : it.value ∈ rem
    · rw [if_pos hm] at h
      by_cases he : (removeFirst it.value rem).isEmpty
      · rw [if_pos he] at h
        have hres : acc ++ [it] = res := Option.some.inj h
        subst hres
        rcases List.mem_append.mp hx with h1 | h2
        · exact Or.inl h1
        · simp only [List.mem_singleton] at h2
          exact Or.inr (h2 ▸ List.mem_cons_self _ _)
      · rw [if_neg he] at h
        rcases ih _ _ _ h x hx with hA | hD
        · rcases List.mem_append.mp hA with h1 | h2
          · exact Or.inl h1
          · simp only [List.mem_singleton] at h2
            exact Or.inr (h2 ▸ List.mem_cons_self _ _)
        · exact Or.inr (List.mem_cons_of_mem _ hD)
    · rw [if_neg hm] at h
      rcases ih _ _ _ h x hx with hA | hD
      · exact Or.inl hA
      · exact Or.inr (List.mem_cons_of_mem _ hD)

lemma reconGo_perm : ∀ (data : List Item) (rem : List ℚ) (acc res : List Item),
    reconGo data rem acc = some res →
    List.Perm (res.map Item.value) (acc.map Item.value ++ rem) := by
  intro data
  induction data with
  | nil => intro rem acc res h; simp [reconGo] at h
  | cons it rest ih =>
    intro rem acc res h
    simp only [reconGo] at h
    by_cases hm : it.value ∈ rem
    · rw [if_pos hm] at h
      by_cases he : (removeFirst it.value rem).isEmpty
      · rw [if_pos he] at h
        have hres : acc ++ [it] = res := Option.some.inj h
        subst hres
        have hrem : rem = [it.value] :=
          removeFirst_eq_nil hm (List.isEmpty_iff.mp he)
        rw [hrem, List.map_append]
        exact List.Perm.refl _
      · rw [if_neg he] at h
        have hperm := ih _ _ _ h
        rw [List.map_append] at hperm
        refine hperm.trans ?_
        rw [List.append_assoc]
        refine List.Perm.append_left _ ?_
        simpa using removeFirst_perm hm
    · rw [if_neg hm] at h
      exact ih _ _ _ h

lemma reconGo_single : ∀ (data : List Item) (b : ℚ) (acc : List Item),
    b ∈ data.map Item.value →
    ∃ it, it ∈ data ∧ it.value = b ∧ reconGo data [b] acc = some (acc ++ [it]) := by
  intro data
  induction data with
  | nil => intro b acc h; simp at h
  | cons hd rest ih =>
    intro b acc hb
    by_cases hv : hd.value = b
    · refine ⟨hd, List.mem_cons_self _ _, hv, ?_⟩
      simp only [reconGo, List.mem_singleton, hv, if_pos, removeFirst, if_pos rfl,
        List.isEmpty_nil, if_true]
    · have hb' : b ∈ rest.map Item.value := by
        simp only [List.map_cons, List.mem_cons] at hb
        rcases hb with h | h
        · exact absurd h.symm hv
        · exact h
      rcases ih b acc hb' with ⟨it, hmem, hval, heq⟩
      refine ⟨it, List.mem_cons_of_mem _ hmem, hval, ?_⟩
      have hnm : hd.value ∉ [b] := by simp [hv]
      rw [reconGo, if_neg hnm]
      exact heq

lemma reconGo_pair_pos (p : ℚ × ℚ → Bool) (hs : ∀ a b, p (a, b) = p (b, a)) :
    ∀ (data : List Item) (a b : ℚ) (acc : List Item),
      (pairsList (data.map Item.value)).find? p = some (a, b) →
      ∃ i1 i2, i1 ∈ data ∧ i2 ∈ data ∧ i1.value = a ∧ i2.value = b ∧
        reconGo data [a, b] acc = some (acc ++ [i1, i2]) := by
  intro data
  induction data with
  | nil => intro a b acc h; simp [pairsList] at h
  | cons hd rest ih =>
    intro a b acc hfind
    simp only [List.map_cons, pairsList, List.find?_append] at hfind
    cases hfst : ((rest.map Item.value).map fun y => (hd.value, y)).find? p with
    | some q0 =>
      rw [hfst] at hfind
      simp only [Option.or_some, Option.some.injEq] at hfind
      subst hfind
      rw [List.find?_map] at hfst
      rcases Option.map_eq_some'.mp hfst with ⟨y, hy1, hy2⟩
      have hq : hd.value = a ∧ y = b := by
        have := hy2
        simp only [Prod.mk.injEq] at this
        exact this
      rcases hq with ⟨hva, hyb⟩
      have hbmem : b ∈ rest.map Item.value := hyb ▸ List.mem_of_find?_eq_some hy1
      rcases reconGo_single rest b (acc ++ [hd]) hbmem with ⟨i2, hi2mem, hi2val, heq⟩
      refine ⟨hd, i2, List.mem_cons_self _ _, List.mem_cons_of_mem _ hi2mem, hva, hi2val, ?_⟩
      have hmem : hd.value ∈ [a, b] := by rw [hva]; exact List.mem_cons_self _ _
      rw [reconGo, if_pos hmem]
      have hrf : removeFirst hd.value [a, b] = [b] := by
        simp [removeFirst, hva]
      rw [hrf]
      simp only [List.isEmpty_cons, if_false, Bool.false_eq_true]
      rw [heq, List.append_assoc]
      rfl
    | none =>
      rw [hfst] at hfind
      simp only [Option.none_or] at hfind
      rw [List.find?_map] at hfst
      have hnone := List.find?_eq_none.mp (Option.map_eq_none'.mp hfst)
      have hp : p (a, b) = true := List.find?_some hfind
      rcases pairsList_mem (List.mem_of_find?_eq_some hfind) with ⟨hamem, hbmem⟩
      have hva : hd.value ≠ a := by
        intro h
        exact hnone b hbmem (by simp only [Function.comp_apply]; rw [h]; exact hp)
      have hvb : hd.value ≠ b := by
        intro h
        refine hnone a hamem (by simp only [Function.comp_apply]; rw [h, ← hs a b]; exact hp)
      rcases ih a b acc hfind with ⟨i1, i2, m1, m2, v1, v2, heq⟩
      refine ⟨i1, i2, List.mem_cons_of_mem _ m1, List.mem_cons_of_mem _ m2, v1, v2, ?_⟩
      have hnm : hd.value ∉ [a, b] := by simp [hva, hvb]
      rw [reconGo, if_neg hnm]
      exact heq

lemma reconGo_triple_pos (p : ℚ × ℚ × ℚ → Bool)
    (hs1 : ∀ a b c, p (a, b, c) = p (b, a, c))
    (hs2 : ∀ a b c, p (a, b, c) = p (a, c, b)) :
    ∀ (data : List Item) (a b c : ℚ) (acc : List Item),
      (triplesList (data.map Item.value)).find? p = some (a, b, c) →
      ∃ i1 i2 i3, i1 ∈ data ∧ i2 ∈ data ∧ i3 ∈ data ∧
        i1.value = a ∧ i2.value = b ∧ i3.value = c ∧
        reconGo data [a, b, c] acc = some (acc ++ [i1, i2, i3]) := by
  intro data
  induction data with
  | nil => intro a b c acc h; simp [triplesList] at h
  | cons hd rest ih =>
    intro a b c acc hfind
    simp only [List.map_cons, triplesList, List.find?_append] at hfind
    cases hfst :
        ((pairsList (rest.map Item.value)).map fun q => (hd.value, q.1, q.2)).find? p with
    | some q0 =>
      rw [hfst] at hfind
      simp only [Option.or_some, Option.some.injEq] at hfind
      subst hfind
      rw [List.find?_map] at hfst
      rcases Option.map_eq_some'.mp hfst with ⟨y, hy1, hy2⟩
      have hq : hd.value = a ∧ y.1 = b ∧ y.2 = c := by
        have := hy2
        simp only [Prod.mk.injEq] at this
        exact this
      rcases hq with ⟨hva, hyb, hyc⟩
      have hy1' : (pairsList (rest.map Item.value)).find?
          (fun q => p (hd.value, q.1, q.2)) = some (b, c) := by
        have : (b, c) = y := by
          rw [← hyb, ← hyc]
        rw [this]
        exact hy1
      rcases reconGo_pair_pos (fun q => p (hd.value, q.1, q.2))
          (fun x y => hs2 hd.value x y) rest b c (acc ++ [hd]) hy1' with
        ⟨i2, i3, m2, m3, v2, v3, heq⟩
      refine ⟨hd, i2, i3, List.mem_cons_self _ _, List.mem_cons_of_mem _ m2,
        List.mem_cons_of_mem _ m3, hva, v2, v3, ?_⟩
      have hmem : hd.value ∈ [a, b, c] := by rw [hva]; exact List.mem_cons_self _ _
      rw [reconGo, if_pos hmem]
      have hrf : removeFirst hd.value [a, b, c] = [b, c] := by
        simp [removeFirst, hva]
      rw [hrf]
      simp only [List.isEmpty_cons, if_false, Bool.false_eq_true]
      rw [heq, List.append_assoc]
      rfl
    | none =>
      rw [hfst] at hfind
      simp only [Option.none_or] at hfind
      rw [List.find?_map] at hfst
      have hnone := List.find?_eq_none.mp (Option.map_eq_none'.mp hfst)
      have hp : p (a, b, c) = true := List.find?_some hfind
      rcases triplesList_pairs (List.mem_of_find?_eq_some hfind) with ⟨hab, hac, hbc⟩
      have hva : hd.value ≠ a := by
        intro h
        exact hnone (b, c) hbc (by simp only [Function.comp_apply]; rw [h]; exact hp)
      have hvb : hd.value ≠ b := by
        intro h
        refine hnone (a, c) hac ?_
        simp only [Function.comp_apply]
        rw [h, ← hs1 a b c]
        exact hp
      have hvc : hd.value ≠ c := by
        intro h
        refine hnone (a, b) hab ?_
        simp only [Function.comp_apply]
        rw [h]
        have : p (c, a, b) = p (a, b, c) := by
          rw [hs1 c a b, ← hs2 a b c]
        rw [this]
        exact hp
      rcases ih a b c acc hfind with ⟨i1, i2, i3, m1, m2, m3, v1, v2, v3, heq⟩
      refine ⟨i1, i2, i3, List.mem_cons_of_mem _ m1, List.mem_cons_of_mem _ m2,
        List.mem_cons_of_mem _ m3, v1, v2, v3, ?_⟩
      have hnm : hd.value ∉ [a, b, c] := by simp [hva, hvb, hvc]
      rw [reconGo, if_neg hnm]
      exact heq

lemma reconGo_nonzero : ∀ (data : List Item) (rem : List ℚ) (acc : List Item),
    (∀ v ∈ rem, v ≠ 0) → reconGo (nonzeroItems data) rem acc = reconGo data rem acc := by
  intro data
  induction data with
  | nil => intro rem acc _; rfl
  | cons hd rest ih =>
    intro rem acc hrem
    by_cases hz : hd.value = 0
    · have hfil : nonzeroItems (hd :: rest) = nonzeroItems rest := by
        simp [nonzeroItems, List.filter_cons, hz]
      rw [hfil, ih rem acc hrem]
      have hnm : hd.value ∉ rem := fun hmem => hrem _ hmem hz
      conv_rhs => rw [reconGo]
      rw [if_neg hnm]
    · have hfil : nonzeroItems (hd :: rest) = hd :: nonzeroItems rest := by
        simp [nonzeroItems, List.filter_cons, hz]
      rw [hfil]
      simp only [reconGo]
      by_cases hm : hd.value ∈ rem
      · rw [if_pos hm, if_pos hm]
        by_cases he : (removeFirst hd.value rem).isEmpty
        · rw [if_pos he, if_pos he]
        · rw [if_neg he, if_neg he]
          exact ih _ _ fun v hv => hrem v (removeFirst_mem hv)
      · rw [if_neg hm, if_neg hm]
        exact ih _ _ hrem

lemma reconstruct_items_perm {data : List Item} {vals : List ℚ} {res : List Item}
    (h : reconstruct_items data vals = some res) :
    List.Perm (res.map Item.value) vals := by
  have := reconGo_perm data vals [] res h
  simpa using this

lemma reconstruct_items_mem {data : List Item} {vals : List ℚ} {res : List Item}
    (h : reconstruct_items data vals = some res) : ∀ x ∈ res, x ∈ data := by
  intro x hx
  rcases reconGo_mem data vals [] res h x hx with h' | h'
  · simp at h'
  · exact h'

/-! ### Strategy characterization lemmas -/

lemma diffGo_eq (data : List Item) (t tol : ℚ) (ps : List (ℚ × ℚ)) :
    diffGo data t tol ps =
      match ps.find? (dpred t tol) with
      | some q => reconstruct_items data [q.1, q.2]
      | none => none := by
  induction ps with
  | nil => rfl
  | cons q rest ih =>
    cases h : dpred t tol q
    · rw [List.find?_cons_of_neg _ (by simp [h])]
      simp only [diffGo, h, Bool.false_eq_true, if_false]
      exact ih
    · rw [List.find?_cons_of_pos _ h]
      simp only [diffGo, h, if_true]

lemma prodPairsGo_eq (data : List Item) (t tol : ℚ) (ps : List (ℚ × ℚ)) :
    prodPairsGo data t tol ps =
      (ps.find? (ppred t tol)).map fun q => reconstruct_items data [q.1, q.2] := by
  induction ps with
  | nil => rfl
  | cons q rest ih =>
    cases h : ppred t tol q
    · rw [List.find?_cons_of_neg _ (by simp [h])]
      simp only [prodPairsGo, h, Bool.false_eq_true, if_false]
      exact ih
    · rw [List.find?_cons_of_pos _ h]
      simp only [prodPairsGo, h, if_true, Option.map_some']

lemma prodTriplesGo_eq (data : List Item) (t tol : ℚ) (ps : List (ℚ × ℚ × ℚ)) :
    prodTriplesGo data t tol ps =
      (ps.find? (ppred3 t tol)).map fun q => reconstruct_items data [q.1, q.2.1, q.2.2] := by
  induction ps with
  | nil => rfl
  | cons q rest ih =>
    cases h : ppred3 t tol q
    · rw [List.find?_cons_of_neg _ (by simp [h])]
      simp only [prodTriplesGo, h, Bool.false_eq_true, if_false]
      exact ih
    · rw [List.find?_cons_of_pos _ h]
      simp only [prodTriplesGo, h, if_true, Option.map_some']

lemma find_subset_product_eq (data : List Item) (t tol : ℚ) :
    find_subset_product data t tol =
      match (pairsList (nonzeroValues data)).find? (ppred t tol) with
      | some q => reconstruct_items data [q.1, q.2]
      | none =>
        match (triplesList (nonzeroValues data)).find? (ppred3 t tol) with
        | some q => reconstruct_items data [q.1, q.2.1, q.2.2]
        | none => none := by
  unfold find_subset_product
  rw [prodPairsGo_eq, prodTriplesGo_eq]
  cases (pairsList (nonzeroValues data)).find? (ppred t tol) with
  | some q => rfl
  | none =>
    cases (triplesList (nonzeroValues data)).find? (ppred3 t tol) with
    | some q => rfl
    | none => rfl

lemma quotGo_eq (fdata : List Item) (t tol : ℚ) (h : 0 ≤ tol) (ps : List (ℚ × ℚ)) :
    quotGo fdata t tol ps =
      Except.ok (match ps.find? (qpred t tol) with
        | some q => reconstruct_items fdata [q.1, q.2]
        | none => none) := by
  have hneg : ¬ tol < 0 := not_lt.mpr h
  induction ps with
  | nil => rfl
  | cons q rest ih =>
    by_cases hc1 : rabs (q.1 / q.2 - t) ≤ tol * rmax (rabs (q.1 / q.2)) (rabs t)
    · have hq : qpred t tol q = true := by simp [qpred, hc1]
      rw [List.find?_cons_of_pos _ hq]
      simp only [quotGo, isclose, if_neg hneg, hc1, decide_eq_true_eq, decide_True]
    · by_cases hc2 : rabs (q.2 / q.1 - t) ≤ tol * rmax (rabs (q.2 / q.1)) (rabs t)
      · have hq : qpred t tol q = true := by simp [qpred, hc2]
        rw [List.find?_cons_of_pos _ hq]
        simp only [quotGo, isclose, if_neg hneg, hc1, hc2, decide_True,
          decide_eq_true_eq, decide_False]
      · have hq : qpred t tol q = false := by simp [qpred, hc1, hc2]
        rw [List.find?_cons_of_neg _ (by simp [hq])]
        simp only [quotGo, isclose, if_neg hneg, hc1, hc2, decide_False]
        exact ih

lemma quotGo_neg (fdata : List Item) (t tol : ℚ) (h : tol < 0) (q : ℚ × ℚ)
    (ps : List (ℚ × ℚ)) : quotGo fdata t tol (q :: ps) = Except.error () := by
  simp only [quotGo, isclose, if_pos h]

/-! ### Subset-sum lemmas -/

lemma sumVals_append (l : List Item) (it : Item) :
    sumVals (l ++ [it]) = sumVals l + it.value := by
  simp [sumVals]

lemma isKey_iff (q : ℚ) (dp : List (ℚ × List Item)) :
    isKey q dp = true ↔ ∃ e ∈ dp, e.1 = q := by
  simp [isKey]

lemma sublist_concat_iff {α : Type} {l pre : List α} {a : α} :
    l.Sublist (pre ++ [a]) ↔ l.Sublist pre ∨ ∃ l', l'.Sublist pre ∧ l = l' ++ [a] := by
  constructor
  · intro h
    rcases List.sublist_append_iff.mp h with ⟨l₁, l₂, rfl, h₁, h₂⟩
    rcases List.sublist_singleton.mp h₂ with rfl | rfl
    · exact Or.inl (by simpa using h₁)
    · exact Or.inr ⟨l₁, h₁, rfl⟩
  · rintro (h | ⟨l', hl', rfl⟩)
    · exact h.trans (List.sublist_append_left _ _)
    · exact hl'.append (List.Sublist.refl _)

lemma sumInner_inl (t tol : ℚ) (it : Item) :
    ∀ (snap dp : List (ℚ × List Item)) (res : List Item),
      sumInner t tol it snap dp = Sum.inl res →
      ∃ s lst, (s, lst) ∈ snap ∧ res = lst ++ [it] ∧ rabs (s + it.value - t) ≤ tol := by
  intro snap
  induction snap with
  | nil => intro dp res h; simp [sumInner] at h
  | cons e snap ih =>
    intro dp res h
    obtain ⟨s, lst⟩ := e
    simp only [sumInner] at h
    by_cases hcl : rabs (s + it.value - t) ≤ tol
    · rw [if_pos hcl] at h
      exact ⟨s, lst, List.mem_cons_self _ _, (Sum.inl.inj h).symm, hcl⟩
    · rw [if_neg hcl] at h
      by_cases hk : isKey (s + it.value) dp = true
      · rw [if_pos hk] at h
        rcases ih dp res h with ⟨s', lst', hm, hr, hc⟩
        exact ⟨s', lst', List.mem_cons_of_mem _ hm, hr, hc⟩
      · rw [if_neg hk] at h
        rcases ih _ res h with ⟨s', lst', hm, hr, hc⟩
        exact ⟨s', lst', List.mem_cons_of_mem _ hm, hr, hc⟩

lemma sumInner_inr_notclose (t tol : ℚ) (it : Item) :
    ∀ (snap dp dp' : List (ℚ × List Item)),
      sumInner t tol it snap dp = Sum.inr dp' →
      ∀ s lst, (s, lst) ∈ snap → ¬ rabs (s + it.value - t) ≤ tol := by
  intro snap
  induction snap with
  | nil => intro dp dp' _ s lst hm; simp at hm
  | cons e snap ih =>
    intro dp dp' h s lst hm
    obtain ⟨s0, lst0⟩ := e
    simp only [sumInner] at h
    by_cases hcl : rabs (s0 + it.value - t) ≤ tol
    · rw [if_pos hcl] at h
      exact absurd h (by simp)
    · rw [if_neg hcl] at h
      rcases List.mem_cons.mp hm with heq | hm'
      · have hs : s = s0 := congrArg Prod.fst heq
        rw [hs]
        exact hcl
      · by_cases hk : isKey (s0 + it.value) dp = true
        · rw [if_pos hk] at h
          exact ih dp dp' h s lst hm'
        · rw [if_neg hk] at h
          exact ih _ dp' h s lst hm'

lemma sumInner_inr_keys (t tol : ℚ) (it : Item) :
    ∀ (snap dp dp' : List (ℚ × List Item)),
      sumInner t tol it snap dp = Sum.inr dp' →
      ∀ q, (∃ e ∈ dp', e.1 = q) ↔
        ((∃ e ∈ dp, e.1 = q) ∨ ∃ s lst, (s, lst) ∈ snap ∧ q = s + it.value) := by
  intro snap
  induction snap with
  | nil =>
    intro dp dp' h q
    have : dp = dp' := Sum.inr.inj h
    subst this
    simp
  | cons e snap ih =>
    intro dp dp' h q
    obtain ⟨s0, lst0⟩ := e
    simp only [sumInner] at h
    by_cases hcl : rabs (s0 + it.value - t) ≤ tol
    · rw [if_pos hcl] at h
      exact absurd h (by simp)
    · rw [if_neg hcl] at h
      by_cases hk : isKey (s0 + it.value) dp = true
      · rw [if_pos hk] at h
        rw [ih dp dp' h q]
        constructor
        · rintro (hq | ⟨s', lst', hm, hq⟩)
          · exact Or.inl hq
          · exact Or.inr ⟨s', lst', List.mem_cons_of_mem _ hm, hq⟩
        · rintro (hq | ⟨s', lst', hm, hq⟩)
          · exact Or.inl hq
          · rcases List.mem_cons.mp hm with heq | hm'
            · have hs : s' = s0 := congrArg Prod.fst heq
              subst hq
              rw [hs]
              exact Or.inl ((isKey_iff _ _).mp hk)
            · exact Or.inr ⟨s', lst', hm', hq⟩
      · rw [if_neg hk] at h
        rw [ih _ dp' h q]
        constructor
        · rintro (hq | ⟨s', lst', hm, hq⟩)
          · rcases hq with ⟨e, he, heq⟩
            rcases List.mem_append.mp he with he' | he'
            · exact Or.inl ⟨e, he', heq⟩
            · simp only [List.mem_singleton] at he'
              subst he'
              exact Or.inr ⟨s0, lst0, List.mem_cons_self _ _, heq.symm⟩
          · exact Or.inr ⟨s', lst', List.mem_cons_of_mem _ hm, hq⟩
        · rintro (hq | ⟨s', lst', hm, hq⟩)
          · rcases hq with ⟨e, he, heq⟩
            exact Or.inl ⟨e, List.mem_append_left _ he, heq⟩
          · rcases List.mem_cons.mp hm with heq | hm'
            · have hs : s' = s0 := congrArg Prod.fst heq
              subst hq
              rw [hs]
              exact Or.inl ⟨(s0 + it.value, lst0 ++ [it]),
                List.mem_append_right _ (List.mem_singleton_self _), rfl⟩
            · exact Or.inr ⟨s', lst', hm', hq⟩

lemma sumInner_inr_good (t tol : ℚ) (it : Item) (pre : List Item) :
    ∀ (snap dp dp' : List (ℚ × List Item)),
      (∀ s lst, (s, lst) ∈ dp → lst.Sublist (pre ++ [it]) ∧ sumVals lst = s) →
      (∀ s lst, (s, lst) ∈ snap → lst.Sublist pre ∧ sumVals lst = s) →
      sumInner t tol it snap dp = Sum.inr dp' →
      ∀ s lst, (s, lst) ∈ dp' → lst.Sublist (pre ++ [it]) ∧ sumVals lst = s := by
  intro snap
  induction snap with
  | nil =>
    intro dp dp' hdp _ h s lst hm
    have : dp = dp' := Sum.inr.inj h
    subst this
    exact hdp s lst hm
  | cons e snap ih =>
    intro dp dp' hdp hsnap h s lst hm
    obtain ⟨s0, lst0⟩ := e
    simp only [sumInner] at h
    by_cases hcl : rabs (s0 + it.value - t) ≤ tol
    · rw [if_pos hcl] at h
      exact absurd h (by simp)
    · rw [if_neg hcl] at h
      have hsnap' : ∀ s lst, (s, lst) ∈ snap → lst.Sublist pre ∧ sumVals lst = s :=
        fun s lst hm' => hsnap s lst (List.mem_cons_of_mem _ hm')
      by_cases hk : isKey (s0 + it.value) dp = true
      · rw [if_pos hk] at h
        exact ih dp dp' hdp hsnap' h s lst hm
      · rw [if_neg hk] at h
        refine ih _ dp' ?_ hsnap' h s lst hm
        intro s' lst' hm'
        rcases List.mem_append.mp hm' with h1 | h2
        · exact hdp s' lst' h1
        · simp only [List.mem_singleton, Prod.mk.injEq] at h2
          rcases h2 with ⟨hs, hl⟩
          rcases hsnap s0 lst0 (List.mem_cons_self _ _) with ⟨hsub, hsum⟩
          subst hs hl
          exact ⟨hsub.append (List.Sublist.refl _), by rw [sumVals_append, hsum]⟩

lemma sumLoop_some (t tol : ℚ) :
    ∀ (rest : List Item) (dp : List (ℚ × List Item)) (pre data : List Item),
      data = pre ++ rest →
      (∀ s lst, (s, lst) ∈ dp → lst.Sublist pre ∧ sumVals lst = s) →
      ∀ res, sumLoop t tol rest dp = some res →
      res ≠ [] ∧ res.Sublist data ∧ rabs (sumVals res - t) ≤ tol := by
  intro rest
  induction rest with
  | nil => intro dp pre data _ _ res h; simp [sumLoop] at h
  | cons it rest' ih =>
    intro dp pre data hdata hgood res h
    simp only [sumLoop] at h
    cases hsi : sumInner t tol it dp dp with
    | inl r =>
      rw [hsi] at h
      have hres : r = res := Option.some.inj h
      subst hres
      rcases sumInner_inl t tol it dp dp r hsi with ⟨s, lst, hm, hr, hcl⟩
      rcases hgood s lst hm with ⟨hsub, hsum⟩
      subst hr
      refine ⟨by simp, ?_, ?_⟩
      · have h1 : (lst ++ [it]).Sublist (pre ++ [it]) :=
          hsub.append (List.Sublist.refl _)
        have h2 : (pre ++ [it]).Sublist (pre ++ it :: rest') :=
          List.Sublist.append_left (by simp) pre
        rw [hdata]
        exact h1.trans h2
      · rw [sumVals_append, hsum]
        exact hcl
    | inr dp2 =>
      rw [hsi] at h
      refine ih dp2 (pre ++ [it]) data ?_ ?_ res h
      · rw [hdata, List.append_cons]
      · refine sumInner_inr_good t tol it pre dp dp dp2 ?_ hgood hsi
        intro s lst hm
        rcases hgood s lst hm with ⟨hsub, hsum⟩
        exact ⟨hsub.trans (List.sublist_append_left _ _), hsum⟩

lemma sumLoop_none (t tol : ℚ) :
    ∀ (rest : List Item) (dp : List (ℚ × List Item)) (pre : List Item),
      (∀ q, (∃ e ∈ dp, e.1 = q) ↔ ∃ l, l.Sublist pre ∧ sumVals l = q) →
      (∀ l, l.Sublist pre → l ≠ [] → ¬ rabs (sumVals l - t) ≤ tol) →
      sumLoop t tol rest dp = none →
      ∀ l, l.Sublist (pre ++ rest) → l ≠ [] → ¬ rabs (sumVals l - t) ≤ tol := by
  intro rest
  induction rest with
  | nil =>
    intro dp pre _ hnm _ l hl
    exact hnm l (by simpa using hl)
  | cons it rest' ih =>
    intro dp pre hkeys hnm h l hl
    simp only [sumLoop] at h
    cases hsi : sumInner t tol it dp dp with
    | inl r =>
      rw [hsi] at h
      exact absurd h (by simp)
    | inr dp2 =>
      rw [hsi] at h
      have hkeys2 : ∀ q, (∃ e ∈ dp2, e.1 = q) ↔
          ∃ l', l'.Sublist (pre ++ [it]) ∧ sumVals l' = q := by
        intro q
        rw [sumInner_inr_keys t tol it dp dp dp2 hsi q]
        constructor
        · rintro (hq | ⟨s, lst, hm, hq⟩)
          · rcases (hkeys q).mp hq with ⟨l', hl', hs⟩
            exact ⟨l', hl'.trans (List.sublist_append_left _ _), hs⟩
          · have hkey : ∃ e ∈ dp, e.1 = s := ⟨(s, lst), hm, rfl⟩
            rcases (hkeys s).mp hkey with ⟨l', hl', hs⟩
            refine ⟨l' ++ [it], sublist_concat_iff.mpr (Or.inr ⟨l', hl', rfl⟩), ?_⟩
            rw [sumVals_append, hs, hq]
        · rintro ⟨l', hl', hs⟩
          rcases sublist_concat_iff.mp hl' with h1 | ⟨l'', hl'', rfl⟩
          · exact Or.inl ((hkeys q).mpr ⟨l', h1, hs⟩)
          · have hkey : ∃ e ∈ dp, e.1 = sumVals l'' :=
              (hkeys (sumVals l'')).mpr ⟨l'', hl'', rfl⟩
            rcases hkey with ⟨e, he, heq⟩
            refine Or.inr ⟨e.1, e.2, by simpa using he, ?_⟩
            rw [heq, ← hs, sumVals_append]
      have hnm2 : ∀ l', l'.Sublist (pre ++ [it]) → l' ≠ [] →
          ¬ rabs (sumVals l' - t) ≤ tol := by
        intro l' hl' hne
        rcases sublist_concat_iff.mp hl' with h1 | ⟨l'', hl'', rfl⟩
        · exact hnm l' h1 hne
        · have hkey : ∃ e ∈ dp, e.1 = sumVals l'' :=
            (hkeys (sumVals l'')).mpr ⟨l'', hl'', rfl⟩
          rcases hkey with ⟨e, he, heq⟩
          have := sumInner_inr_notclose t tol it dp dp dp2 hsi e.1 e.2 (by simpa using he)
          rw [heq] at this
          rw [sumVals_append]
          exact this
      refine ih dp2 (pre ++ [it]) hkeys2 hnm2 h l ?_ 
      rw [← List.append_cons]
      exact hl

lemma find_subset_sum_some {data : List Item} {t tol : ℚ} {res : List Item}
    (h : find_subset_sum data t tol = some res) :
    res ≠ [] ∧ res.Sublist data ∧ rabs (sumVals res - t) ≤ tol := by
  refine sumLoop_some t tol data [(0, [])] [] data (by simp) ?_ res h
  intro s lst hm
  simp only [List.mem_singleton, Prod.mk.injEq] at hm
  rcases hm with ⟨hs, hl⟩
  subst hs hl
  exact ⟨List.Sublist.refl _, by simp [sumVals]⟩

lemma find_subset_sum_none_iff (data : List Item) (t tol : ℚ) :
    find_subset_sum data t tol = none ↔
      ¬ ∃ l, l ≠ [] ∧ l.Sublist data ∧ rabs (sumVals l - t) ≤ tol := by
  constructor
  · rintro h ⟨l, hne, hsub, hcl⟩
    refine sumLoop_none t tol data [(0, [])] [] ?_ ?_ h l (by simpa using hsub) hne hcl
    · intro q
      constructor
      · rintro ⟨e, he, heq⟩
        simp only [List.mem_singleton] at he
        subst he
        exact ⟨[], List.Sublist.refl _, by simp [sumVals, ← heq]⟩
      · rintro ⟨l', hl', hs⟩
        have : l' = [] := List.sublist_nil.mp hl'
        subst this
        refine ⟨(0, []), List.mem_singleton_self _, ?_⟩
        rw [← hs]
        simp [sumVals]
    · intro l' hl' hne'
      exact absurd (List.sublist_nil.mp hl') hne'
  · intro h
    cases hres : find_subset_sum data t tol with
    | none => rfl
    | some res =>
      rcases find_subset_sum_some hres with ⟨hne, hsub, hcl⟩
      exact absurd ⟨res, hne, hsub, hcl⟩ h

/-! ### Membership and orchestrator lemmas -/

lemma mem_nonzeroItems {x : Item} {data : List Item} (h : x ∈ nonzeroItems data) :
    x ∈ data ∧ x.value ≠ 0 := by
  simpa [nonzeroItems, List.mem_filter] using h

lemma mem_nonzeroValues {v : ℚ} {data : List Item} (h : v ∈ nonzeroValues data) :
    v ≠ 0 := by
  simp only [nonzeroValues, List.mem_map] at h
  rcases h with ⟨it, hit, rfl⟩
  exact (mem_nonzeroItems hit).2

lemma runOp_mem {data : List Item} {op : Op} {t tol : ℚ} {l : List Item}
    (h : runOp data op t tol = Except.ok (some l)) : ∀ x ∈ l, x ∈ data := by
  cases op with
  | sum =>
    have hs : find_subset_sum data t tol = some l := by
      simpa [runOp] using h
    exact fun x hx => (find_subset_sum_some hs).2.1.subset hx
  | difference =>
    have hs : find_subset_difference data t tol = some l := by
      simpa [runOp] using h
    rw [find_subset_difference, diffGo_eq] at hs
    cases hq : (pairsList (data.map Item.value)).find? (dpred t tol) with
    | some q =>
      rw [hq] at hs
      exact reconstruct_items_mem hs
    | none => rw [hq] at hs; exact absurd hs (by simp)
  | product =>
    have hs : find_subset_product data t tol = some l := by
      simpa [runOp] using h
    rw [find_subset_product_eq] at hs
    cases hq : (pairsList (nonzeroValues data)).find? (ppred t tol) with
    | some q =>
      rw [hq] at hs
      exact reconstruct_items_mem hs
    | none =>
      rw [hq] at hs
      cases hq3 : (triplesList (nonzeroValues data)).find? (ppred3 t tol) with
      | some q =>
        rw [hq3] at hs
        exact reconstruct_items_mem hs
      | none => rw [hq3] at hs; exact absurd hs (by simp)
  | quotient =>
    have hs : find_subset_quotient data t tol = Except.ok (some l) := by
      simpa [runOp] using h
    rw [find_subset_quotient] at hs
    by_cases htol : tol < 0
    · cases hps : pairsList ((nonzeroItems data).map Item.value) with
      | nil => rw [hps] at hs; simp [quotGo] at hs
      | cons q ps =>
        rw [hps, quotGo_neg _ _ _ htol] at hs
        exact absurd hs (by simp)
    · rw [quotGo_eq _ _ _ (le_of_not_lt htol)] at hs
      have hs' : (match (pairsList ((nonzeroItems data).map Item.value)).find?
          (qpred t tol) with
        | some q => reconstruct_items (nonzeroItems data) [q.1, q.2]
        | none => none) = some l := Except.ok.inj hs
      cases hq : (pairsList ((nonzeroItems data).map Item.value)).find? (qpred t tol) with
      | some q =>
        rw [hq] at hs'
        exact fun x hx => (mem_nonzeroItems (reconstruct_items_mem hs' x hx)).1
      | none => rw [hq] at hs'; exact absurd hs' (by simp)

lemma find_subsets_ok (data : List Item) (op : Op) (tol : ℚ) :
    ∀ (targets : List ℚ) (results : List (ℚ × List Item)),
      find_subsets data targets op tol = Except.ok results →
      results = targets.filterMap fun t =>
        match runOp data op t tol with
        | Except.ok (some l) => if l.isEmpty then none else some (t, l)
        | _ => none := by
  intro targets
  induction targets with
  | nil =>
    intro results h
    have : ([] : List (ℚ × List Item)) = results := Except.ok.inj h
    rw [← this]
    rfl
  | cons t ts ih =>
    intro results h
    simp only [find_subsets] at h
    cases hr : runOp data op t tol with
    | error e => rw [hr] at h; exact absurd h (by simp)
    | ok subset =>
      rw [hr] at h
      cases hrest : find_subsets data ts op tol with
      | error e => rw [hrest] at h; exact absurd h (by simp)
      | ok rest =>
        rw [hrest] at h
        have hres : (if truthy subset then (t, subset.getD []) :: rest else rest)
            = results := Except.ok.inj h
        have hhead : (match runOp data op t tol with
            | Except.ok (some l) => if l.isEmpty then none else some (t, l)
            | _ => none)
            = if truthy subset then some (t, subset.getD []) else none := by
          rw [hr]
          cases subset with
          | none => rfl
          | some l =>
            cases hl : l.isEmpty with
            | true => simp [truthy, hl]
            | false => simp [truthy, hl]
        rw [List.filterMap_cons, hhead, ← hres]
        cases hb : truthy subset with
        | false =>
          simp only [Bool.false_eq_true, if_false]
          exact ih rest hrest
        | true =>
          simp only [if_true]
          exact congrArg (fun x => (t, subset.getD []) :: x) (ih rest hrest)

/-! ### Predicate symmetry and small helpers -/

lemma rabs_eq (x : ℚ) : rabs x = |x| := by
  by_cases h : x < 0
  · simp only [rabs, if_pos h]
    rw [abs_of_neg h]
  · simp only [rabs, if_neg h]
    rw [abs_of_nonneg (not_lt.mp h)]

lemma rmax_eq (x y : ℚ) : rmax x y = max x y := by
  simp only [rmax]
  rw [max_def]

lemma rabs_nonneg (x : ℚ) : 0 ≤ rabs x := by
  rw [rabs_eq]
  exact abs_nonneg x

lemma dpred_symm (t tol a b : ℚ) : dpred t tol (a, b) = dpred t tol (b, a) := by
  simp only [dpred]
  rw [decide_eq_decide]
  have h1 : rabs (a - b) = rabs (b - a) := by
    rw [rabs_eq, rabs_eq, abs_sub_comm]
  rw [h1]

lemma ppred_symm (t tol a b : ℚ) : ppred t tol (a, b) = ppred t tol (b, a) := by
  simp only [ppred]
  rw [decide_eq_decide, mul_comm a b]

lemma ppred3_swap12 (t tol a b c : ℚ) :
    ppred3 t tol (a, b, c) = ppred3 t tol (b, a, c) := by
  simp only [ppred3]
  rw [decide_eq_decide]
  have : a * b * c = b * a * c := by ring
  rw [this]

lemma ppred3_swap23 (t tol a b c : ℚ) :
    ppred3 t tol (a, b, c) = ppred3 t tol (a, c, b) := by
  simp only [ppred3]
  rw [decide_eq_decide]
  have : a * b * c = a * c * b := by ring
  rw [this]

lemma qpred_symm (t tol a b : ℚ) : qpred t tol (a, b) = qpred t tol (b, a) := by
  simp only [qpred]
  exact Bool.or_comm _ _

lemma pairsList_ne_nil {α : Type} {l : List α} (h : 2 ≤ l.length) :
    ∃ q ps, pairsList l = q :: ps := by
  rcases l with _ | ⟨x, _ | ⟨y, xs⟩⟩
  · simp at h
  · simp at h
  · exact ⟨(x, y), _, rfl⟩

lemma reconstruct_items_nonzero (data : List Item) (vs : List ℚ)
    (h : ∀ v ∈ vs, v ≠ 0) :
    reconstruct_items data vs = reconstruct_items (nonzeroItems data) vs :=
  (reconGo_nonzero data vs [] h).symm

lemma find_subset_difference_some {data : List Item} {t tol : ℚ} {l : List Item}
    (h : find_subset_difference data t tol = some l) :
    ∃ a b, (pairsList (data.map Item.value)).find? (dpred t tol) = some (a, b) ∧
      ∃ i1 i2, i1 ∈ data ∧ i2 ∈ data ∧ i1.value = a ∧ i2.value = b ∧ l = [i1, i2] := by
  have hchar := diffGo_eq data t tol (pairsList (data.map Item.value))
  rw [find_subset_difference] at h
  rw [hchar] at h
  cases hq : (pairsList (data.map Item.value)).find? (dpred t tol) with
  | none => rw [hq] at h; exact absurd h (by simp)
  | some q =>
    rw [hq] at h
    obtain ⟨a, b⟩ := q
    rcases reconGo_pair_pos (dpred t tol) (dpred_symm t tol) data a b [] hq with
      ⟨i1, i2, m1, m2, v1, v2, heq⟩
    have hl : l = [i1, i2] := by
      simp only [reconstruct_items] at h
      rw [heq] at h
      simpa using (Option.some.inj h).symm
    exact ⟨a, b, rfl, i1, i2, m1, m2, v1, v2, hl⟩

lemma find_subset_difference_none_iff (data : List Item) (t tol : ℚ) :
    find_subset_difference data t tol = none ↔
      (pairsList (data.map Item.value)).find? (dpred t tol) = none := by
  have hchar := diffGo_eq data t tol (pairsList (data.map Item.value))
  constructor
  · intro h
    cases hq : (pairsList (data.map Item.value)).find? (dpred t tol) with
    | none => rfl
    | some q =>
      exfalso
      obtain ⟨a, b⟩ := q
      rcases reconGo_pair_pos (dpred t tol) (dpred_symm t tol) data a b [] hq with
        ⟨i1, i2, _, _, _, _, heq⟩
      rw [find_subset_difference, hchar, hq] at h
      simp only [reconstruct_items] at h
      rw [heq] at h
      simp at h
  · intro h
    rw [find_subset_difference, hchar, h]

lemma find_subset_quotient_ok_some {data : List Item} {t tol : ℚ} {l : List Item}
    (h : find_subset_quotient data t tol = Except.ok (some l)) :
    0 ≤ tol ∧
    ∃ a b, (pairsList ((nonzeroItems data).map Item.value)).find? (qpred t tol)
        = some (a, b) ∧
      ∃ i1 i2, i1 ∈ nonzeroItems data ∧ i2 ∈ nonzeroItems data ∧
        i1.value = a ∧ i2.value = b ∧ l = [i1, i2] := by
  by_cases htol : tol < 0
  · exfalso
    rw [find_subset_quotient] at h
    cases hps : pairsList ((nonzeroItems data).map Item.value) with
    | nil => rw [hps] at h; simp [quotGo] at h
    | cons q ps =>
      rw [hps, quotGo_neg _ _ _ htol] at h
      exact absurd h (by simp)
  · have h0 : 0 ≤ tol := le_of_not_lt htol
    refine ⟨h0, ?_⟩
    rw [find_subset_quotient, quotGo_eq _ _ _ h0] at h
    have h' := Except.ok.inj h
    cases hq : (pairsList ((nonzeroItems data).map Item.value)).find? (qpred t tol) with
    | none => rw [hq] at h'; exact absurd h' (by simp)
    | some q =>
      rw [hq] at h'
      obtain ⟨a, b⟩ := q
      rcases reconGo_pair_pos (qpred t tol) (qpred_symm t tol) (nonzeroItems data)
          a b [] hq with ⟨i1, i2, m1, m2, v1, v2, heq⟩
      have hl : l = [i1, i2] := by
        simp only [reconstruct_items] at h'
        rw [heq] at h'
        simpa using (Option.some.inj h').symm
      exact ⟨a, b, rfl, i1, i2, m1, m2, v1, v2, hl⟩

/-! ### Claim theorems -/

/-- C1: for every Item Store, target and tolerance, any subset returned by
the subset-sum search is a non-empty selection of items from the store
(a sublist, hence distinct item occurrences in store order) whose values
sum to within the absolute tolerance of the target. -/
theorem spec_C1_sum_result_sound (data : List Item) (t tol : ℚ) (l : List Item)
    (h : find_subset_sum data t tol = some l) :
    l ≠ [] ∧ l.Sublist data ∧ |sumVals l - t| ≤ tol := by
  rcases find_subset_sum_some h with ⟨h1, h2, h3⟩
  rw [rabs_eq] at h3
  exact ⟨h1, h2, h3⟩

/-- Witness for C1: on the store `[2, 3]` with target `5` and tolerance `0`
the sum search returns both items, and the guarantees hold for them. -/
theorem spec_C1_witness :
    find_subset_sum [⟨2, "A", 1⟩, ⟨3, "A", 2⟩] 5 0 = some [⟨2, "A", 1⟩, ⟨3, "A", 2⟩] ∧
    ([⟨2, "A", 1⟩, ⟨3, "A", 2⟩] : List Item) ≠ [] ∧
    List.Sublist ([⟨2, "A", 1⟩, ⟨3, "A", 2⟩] : List Item) [⟨2, "A", 1⟩, ⟨3, "A", 2⟩] ∧
    |sumVals [⟨2, "A", 1⟩, ⟨3, "A", 2⟩] - 5| ≤ 0 := by
  have hrun : find_subset_sum [⟨2, "A", 1⟩, ⟨3, "A", 2⟩] 5 0
      = some [⟨2, "A", 1⟩, ⟨3, "A", 2⟩] := by
    norm_num [find_subset_sum, sumLoop, sumInner, rabs, isKey]
  exact ⟨hrun, spec_C1_sum_result_sound _ 5 0 _ hrun⟩

/-- C3: the subset-sum search reports no-match exactly when no non-empty
subset of the store sums to within the tolerance of the target. -/
theorem spec_C3_sum_no_match_iff (data : List Item) (t tol : ℚ) :
    find_subset_sum data t tol = none ↔
      ¬ ∃ l, l ≠ [] ∧ l.Sublist data ∧ |sumVals l - t| ≤ tol := by
  rw [find_subset_sum_none_iff]
  simp only [rabs_eq]

/-- C7: whenever the orchestrator returns normally, its output is exactly
the in-order list of `(target, items)` pairs for the targets whose strategy
call produced a truthy (non-empty) match; unmatched targets are absent. -/
theorem spec_C7_orchestrator (data : List Item) (op : Op) (tol : ℚ)
    (targets : List ℚ) (results : List (ℚ × List Item))
    (h : find_subsets data targets op tol = Except.ok results) :
    results = targets.filterMap fun t =>
      match runOp data op t tol with
      | Except.ok (some l) => if l.isEmpty then none else some (t, l)
      | _ => none :=
  find_subsets_ok data op tol targets results h

/-- Witness for C7: the spec scenario — targets `[5, 100]` on the store
`[1, 4]` with operation sum and tolerance `0` yields only the entry for
`5`; `100` is absent. -/
theorem spec_C7_witness :
    find_subsets [⟨1, "A", 1⟩, ⟨4, "A", 2⟩] [5, 100] Op.sum 0
      = Except.ok [(5, [⟨1, "A", 1⟩, ⟨4, "A", 2⟩])] ∧
    [((5 : ℚ), [⟨(1 : ℚ), "A", 1⟩, ⟨4, "A", 2⟩])] = List.filterMap (fun t =>
      match runOp [⟨1, "A", 1⟩, ⟨4, "A", 2⟩] Op.sum t 0 with
      | Except.ok (some l) => if l.isEmpty then none else some (t, l)
      | _ => none) [5, 100] := by
  have hrun : find_subsets [⟨1, "A", 1⟩, ⟨4, "A", 2⟩] [5, 100] Op.sum 0
      = Except.ok [(5, [⟨1, "A", 1⟩, ⟨4, "A", 2⟩])] := by
    norm_num [find_subsets, runOp, find_subset_sum, sumLoop, sumInner, rabs, isKey, truthy]
  exact ⟨hrun, spec_C7_orchestrator _ _ _ _ _ hrun⟩

/-- C9: for a strictly negative target and strictly positive tolerance the
product search always reports no-match, because the acceptance threshold
`tolerance * target` is negative while `|product - target|` is not. -/
theorem spec_C9_product_negative_target (data : List Item) (t tol : ℚ)
    (ht : t < 0) (htol : 0 < tol) : find_subset_product data t tol = none := by
  have hneg : tol * t < 0 := mul_neg_of_pos_of_neg htol ht
  have hp : ∀ q : ℚ × ℚ, ¬ ppred t tol q = true := by
    intro q
    simp only [ppred, decide_eq_true_eq, not_le]
    exact lt_of_lt_of_le hneg (rabs_nonneg _)
  have hp3 : ∀ q : ℚ × ℚ × ℚ, ¬ ppred3 t tol q = true := by
    intro q
    simp only [ppred3, decide_eq_true_eq, not_le]
    exact lt_of_lt_of_le hneg (rabs_nonneg _)
  rw [find_subset_product_eq]
  rw [List.find?_eq_none.mpr fun q _ => hp q, List.find?_eq_none.mpr fun q _ => hp3 q]

/-- Witness for C9: the store `[2, -3]` holds a pair whose exact product is
the target `-6`, yet with tolerance `1` the product search rejects it. -/
theorem spec_C9_witness :
    (-6 : ℚ) < 0 ∧ (0 : ℚ) < 1 ∧
    find_subset_product [⟨2, "A", 1⟩, ⟨-3, "B", 2⟩] (-6) 1 = none :=
  ⟨by norm_num, by norm_num,
    spec_C9_product_negative_target _ (-6) 1 (by norm_num) (by norm_num)⟩

/-- C4: the product search considers only nonzero values, returns the first
pair (in canonical enumeration order) within the relative threshold
`tolerance * target`, falls through to triplets only when the pair search is
exhausted, and every accepted result has two or three nonzero-valued store
items whose product is within `tolerance * target` of the target. -/
theorem spec_C4_product (data : List Item) (t tol : ℚ) :
    (find_subset_product data t tol =
      match (pairsList (nonzeroValues data)).find? (ppred t tol) with
      | some q => reconstruct_items data [q.1, q.2]
      | none =>
        match (triplesList (nonzeroValues data)).find? (ppred3 t tol) with
        | some q => reconstruct_items data [q.1, q.2.1, q.2.2]
        | none => none) ∧
    ∀ l, find_subset_product data t tol = some l →
      (l.length = 2 ∨ l.length = 3) ∧ (∀ x ∈ l, x ∈ data ∧ x.value ≠ 0) ∧
      |prodVals l - t| ≤ tol * t := by
  refine ⟨find_subset_product_eq data t tol, ?_⟩
  intro l hl
  rw [find_subset_product_eq] at hl
  cases hq : (pairsList (nonzeroValues data)).find? (ppred t tol) with
  | some q =>
    rw [hq] at hl
    have hperm := reconstruct_items_perm hl
    rcases pairsList_mem (List.mem_of_find?_eq_some hq) with ⟨hm1, hm2⟩
    have hq1 : q.1 ≠ 0 := mem_nonzeroValues hm1
    have hq2 : q.2 ≠ 0 := mem_nonzeroValues hm2
    have hpred : ppred t tol q = true := List.find?_some hq
    simp only [ppred, decide_eq_true_eq, rabs_eq] at hpred
    refine ⟨Or.inl ?_, ?_, ?_⟩
    · have := hperm.length_eq
      simpa using this
    · intro x hx
      refine ⟨reconstruct_items_mem hl x hx, ?_⟩
      have hv : x.value ∈ [q.1, q.2] := hperm.mem_iff.mp (List.mem_map_of_mem _ hx)
      rcases List.mem_cons.mp hv with h | h
      · rw [h]; exact hq1
      · simp only [List.mem_singleton] at h
        rw [h]; exact hq2
    · have hprod : prodVals l = q.1 * q.2 := by
        simp only [prodVals]
        rw [hperm.prod_eq]
        simp
      rw [hprod]
      exact hpred
  | none =>
    rw [hq] at hl
    cases hq3 : (triplesList (nonzeroValues data)).find? (ppred3 t tol) with
    | none => rw [hq3] at hl; exact absurd hl (by simp)
    | some q =>
      rw [hq3] at hl
      have hperm := reconstruct_items_perm hl
      rcases triplesList_pairs (List.mem_of_find?_eq_some hq3) with ⟨hab, hac, hbc⟩
      have hq1 : q.1 ≠ 0 := mem_nonzeroValues (pairsList_mem hab).1
      have hq2 : q.2.1 ≠ 0 := mem_nonzeroValues (pairsList_mem hab).2
      have hq3' : q.2.2 ≠ 0 := mem_nonzeroValues (pairsList_mem hbc).2
      have hpred : ppred3 t tol q = true := List.find?_some hq3
      simp only [ppred3, decide_eq_true_eq, rabs_eq] at hpred
      refine ⟨Or.inr ?_, ?_, ?_⟩
      · have := hperm.length_eq
        simpa using this
      · intro x hx
        refine ⟨reconstruct_items_mem hl x hx, ?_⟩
        have hv : x.value ∈ [q.1, q.2.1, q.2.2] :=
          hperm.mem_iff.mp (List.mem_map_of_mem _ hx)
        rcases List.mem_cons.mp hv with h | h
        · rw [h]; exact hq1
        · rcases List.mem_cons.mp h with h' | h'
          · rw [h']; exact hq2
          · simp only [List.mem_singleton] at h'
            rw [h']; exact hq3'
      · have hprod : prodVals l = q.1 * q.2.1 * q.2.2 := by
          simp only [prodVals]
          rw [hperm.prod_eq]
          simp [mul_assoc]
        rw [hprod]
        exact hpred

/-- Witness for C4: the store `[2, 5]` with target `10` and tolerance `0`
returns the pair, and every guaranteed property holds for it. -/
theorem spec_C4_witness :
    find_subset_product [⟨2, "A", 1⟩, ⟨5, "B", 2⟩] 10 0
      = some [⟨2, "A", 1⟩, ⟨5, "B", 2⟩] ∧
    ((([⟨2, "A", 1⟩, ⟨5, "B", 2⟩] : List Item).length = 2 ∨
      ([⟨2, "A", 1⟩, ⟨5, "B", 2⟩] : List Item).length = 3) ∧
     (∀ x ∈ ([⟨2, "A", 1⟩, ⟨5, "B", 2⟩] : List Item),
        x ∈ ([⟨2, "A", 1⟩, ⟨5, "B", 2⟩] : List Item) ∧ x.value ≠ 0) ∧
     |prodVals [⟨2, "A", 1⟩, ⟨5, "B", 2⟩] - 10| ≤ 0 * 10) := by
  have hrun : find_subset_product [⟨2, "A", 1⟩, ⟨5, "B", 2⟩] 10 0
      = some [⟨2, "A", 1⟩, ⟨5, "B", 2⟩] := by
    norm_num [find_subset_product, prodPairsGo, prodTriplesGo, nonzeroValues,
      nonzeroItems, pairsList, triplesList, ppred, ppred3, rabs,
      reconstruct_items, reconGo, removeFirst]
  exact ⟨hrun, (spec_C4_product _ 10 0).2 _ hrun⟩

/-- C6: the pairwise-difference search is exactly the first match of
`||a - b| - target| ≤ tolerance` over the canonical unordered-pair
enumeration (`n * (n - 1) / 2` pairs, counted here as
`2 * count = n * (n - 1)`), it reports no-match exactly when every pair
fails the check, and every accepted result is exactly two store items whose
values satisfy the check. -/
theorem spec_C6_difference (data : List Item) (t tol : ℚ) :
    (find_subset_difference data t tol =
      match (pairsList (data.map Item.value)).find? (dpred t tol) with
      | some q => reconstruct_items data [q.1, q.2]
      | none => none) ∧
    2 * (pairsList (data.map Item.value)).length = data.length * (data.length - 1) ∧
    (find_subset_difference data t tol = none ↔
      ∀ q ∈ pairsList (data.map Item.value), ¬ |(|q.1 - q.2|) - t| ≤ tol) ∧
    ∀ l, find_subset_difference data t tol = some l →
      l.length = 2 ∧ (∀ x ∈ l, x ∈ data) ∧
      ∃ a b, l.map Item.value = [a, b] ∧ |(|a - b|) - t| ≤ tol := by
  refine ⟨diffGo_eq data t tol (pairsList (data.map Item.value)), ?_, ?_, ?_⟩
  · have := pairsList_length (data.map Item.value)
    rwa [List.length_map] at this
  · rw [find_subset_difference_none_iff, List.find?_eq_none]
    simp only [dpred, decide_eq_true_eq, rabs_eq]
  · intro l hl
    rcases find_subset_difference_some hl with ⟨a, b, hq, i1, i2, m1, m2, v1, v2, rfl⟩
    have hpred : dpred t tol (a, b) = true := List.find?_some hq
    simp only [dpred, decide_eq_true_eq, rabs_eq] at hpred
    exact ⟨rfl, by intro x hx; rcases List.mem_cons.mp hx with rfl | hx
                   · exact m1
                   · simp only [List.mem_singleton] at hx
                     exact hx ▸ m2,
           a, b, by simp [v1, v2], hpred⟩

/-- Witness for C6: the store `[3, 1, 5]` with target `4` and tolerance `0`
returns the pair `(1, 5)`, and every guaranteed property holds for it. -/
theorem spec_C6_witness :
    find_subset_difference [⟨3, "A", 1⟩, ⟨1, "A", 2⟩, ⟨5, "A", 3⟩] 4 0
      = some [⟨1, "A", 2⟩, ⟨5, "A", 3⟩] ∧
    (([⟨1, "A", 2⟩, ⟨5, "A", 3⟩] : List Item).length = 2 ∧
     (∀ x ∈ ([⟨1, "A", 2⟩, ⟨5, "A", 3⟩] : List Item),
        x ∈ ([⟨3, "A", 1⟩, ⟨1, "A", 2⟩, ⟨5, "A", 3⟩] : List Item)) ∧
     ∃ a b, ([⟨1, "A", 2⟩, ⟨5, "A", 3⟩] : List Item).map Item.value = [a, b] ∧
       |(|a - b|) - 4| ≤ 0) := by
  have hrun : find_subset_difference [⟨3, "A", 1⟩, ⟨1, "A", 2⟩, ⟨5, "A", 3⟩] 4 0
      = some [⟨1, "A", 2⟩, ⟨5, "A", 3⟩] := by
    norm_num [find_subset_difference, diffGo, pairsList, dpred, rabs,
      reconstruct_items, reconGo, removeFirst]
  exact ⟨hrun, (spec_C6_difference _ 4 0).2.2.2 _ hrun⟩

/-- C5: the quotient search filters out zero-valued items before searching,
so every enumerated pair (every pair of operands of a division) is
nonzero in both components; every accepted result is exactly two
nonzero-valued store items one of whose quotients is within the relative
tolerance of the target (difference at most tolerance times the larger
magnitude). -/
theorem spec_C5_quotient (data : List Item) (t tol : ℚ) :
    (∀ q ∈ pairsList ((nonzeroItems data).map Item.value), q.1 ≠ 0 ∧ q.2 ≠ 0) ∧
    ∀ l, find_subset_quotient data t tol = Except.ok (some l) →
      l.length = 2 ∧ (∀ x ∈ l, x ∈ data ∧ x.value ≠ 0) ∧
      ∃ a b, l.map Item.value = [a, b] ∧ a ≠ 0 ∧ b ≠ 0 ∧
        (|a / b - t| ≤ tol * max |a / b| |t| ∨
         |b / a - t| ≤ tol * max |b / a| |t|) := by
  constructor
  · intro q hq
    rcases pairsList_mem hq with ⟨h1, h2⟩
    exact ⟨mem_nonzeroValues h1, mem_nonzeroValues h2⟩
  · intro l hl
    rcases find_subset_quotient_ok_some hl with
      ⟨_, a, b, hq, i1, i2, m1, m2, v1, v2, rfl⟩
    have ha : a ≠ 0 := mem_nonzeroValues (pairsList_mem (List.mem_of_find?_eq_some hq)).1
    have hb : b ≠ 0 := mem_nonzeroValues (pairsList_mem (List.mem_of_find?_eq_some hq)).2
    have hpred : qpred t tol (a, b) = true := List.find?_some hq
    simp only [qpred, Bool.or_eq_true, decide_eq_true_eq, rabs_eq, rmax_eq] at hpred
    refine ⟨rfl, ?_, a, b, by simp [v1, v2], ha, hb, hpred⟩
    intro x hx
    rcases List.mem_cons.mp hx with rfl | hx
    · exact ⟨(mem_nonzeroItems m1).1, v1 ▸ ha⟩
    · simp only [List.mem_singleton] at hx
      subst hx
      exact ⟨(mem_nonzeroItems m2).1, v2 ▸ hb⟩

/-- Witness for C5: the spec scenario — store `[4, 12]`, target `3`,
tolerance `1/100` matches via `12 / 4 = 3`, and every guaranteed property
holds for the returned pair. -/
theorem spec_C5_witness :
    find_subset_quotient [⟨4, "A", 1⟩, ⟨12, "B", 2⟩] 3 (1/100)
      = Except.ok (some [⟨4, "A", 1⟩, ⟨12, "B", 2⟩]) ∧
    (([⟨4, "A", 1⟩, ⟨12, "B", 2⟩] : List Item).length = 2 ∧
     (∀ x ∈ ([⟨4, "A", 1⟩, ⟨12, "B", 2⟩] : List Item),
        x ∈ ([⟨4, "A", 1⟩, ⟨12, "B", 2⟩] : List Item) ∧ x.value ≠ 0) ∧
     ∃ a b, ([⟨4, "A", 1⟩, ⟨12, "B", 2⟩] : List Item).map Item.value = [a, b] ∧
       a ≠ 0 ∧ b ≠ 0 ∧
       (|a / b - 3| ≤ (1/100) * max |a / b| |(3 : ℚ)| ∨
        |b / a - 3| ≤ (1/100) * max |b / a| |(3 : ℚ)|)) := by
  have hrun : find_subset_quotient [⟨4, "A", 1⟩, ⟨12, "B", 2⟩] 3 (1/100)
      = Except.ok (some [⟨4, "A", 1⟩, ⟨12, "B", 2⟩]) := by
    norm_num [find_subset_quotient, quotGo, isclose, nonzeroItems, List.filter,
      pairsList, rabs, rmax, reconstruct_items, reconGo, removeFirst]
  exact ⟨hrun, (spec_C5_quotient _ 3 (1/100)).2 _ hrun⟩

/-- C2: for every value list a strategy hands to Reconstruction (the first
satisfied acceptance test of the difference, product or quotient search, as
recorded by `handed`), Reconstruction succeeds and returns one store item
per wanted value whose value matches the wanted value at the same position,
and this is exactly the subset the strategy returns. -/
theorem spec_C2_reconstruction (data : List Item) (t tol : ℚ) (op : Op)
    (vs : List ℚ) (h : handed data t tol op = some vs) :
    ∃ res, reconstruct_items (reconTarget data op) vs = some res ∧
      res.map Item.value = vs ∧ (∀ x ∈ res, x ∈ data) ∧
      runOp data op t tol = Except.ok (some res) := by
  cases op with
  | sum => simp [handed] at h
  | difference =>
    simp only [handed] at h
    cases hq : (pairsList (data.map Item.value)).find? (dpred t tol) with
    | none => rw [hq] at h; exact absurd h (by simp)
    | some q =>
      rw [hq] at h
      simp only [Option.map_some', Option.some.injEq] at h
      subst h
      obtain ⟨a, b⟩ := q
      rcases reconGo_pair_pos (dpred t tol) (dpred_symm t tol) data a b [] hq with
        ⟨i1, i2, m1, m2, v1, v2, heq⟩
      have hrecon : reconstruct_items data [a, b] = some [i1, i2] := by
        simp only [reconstruct_items]
        simpa using heq
      refine ⟨[i1, i2], hrecon, by simp [v1, v2], ?_, ?_⟩
      · intro x hx
        rcases List.mem_cons.mp hx with rfl | hx
        · exact m1
        · simp only [List.mem_singleton] at hx
          exact hx ▸ m2
      · have hchar := diffGo_eq data t tol (pairsList (data.map Item.value))
        rw [hq] at hchar
        simp only [runOp]
        rw [find_subset_difference, hchar]
        exact congrArg Except.ok hrecon
  | product =>
    simp only [handed] at h
    cases hq : (pairsList (nonzeroValues data)).find? (ppred t tol) with
    | some q =>
      rw [hq] at h
      simp only [Option.some.injEq] at h
      subst h
      obtain ⟨a, b⟩ := q
      have ha : a ≠ 0 := mem_nonzeroValues (pairsList_mem (List.mem_of_find?_eq_some hq)).1
      have hb : b ≠ 0 := mem_nonzeroValues (pairsList_mem (List.mem_of_find?_eq_some hq)).2
      rcases reconGo_pair_pos (ppred t tol) (ppred_symm t tol) (nonzeroItems data)
          a b [] hq with ⟨i1, i2, m1, m2, v1, v2, heq⟩
      have hrecon : reconstruct_items data [a, b] = some [i1, i2] := by
        rw [reconstruct_items_nonzero data [a, b] ?_]
        · simp only [reconstruct_items]
          simpa using heq
        · intro v hv
          rcases List.mem_cons.mp hv with rfl | hv
          · exact ha
          · simp only [List.mem_singleton] at hv
            exact hv ▸ hb
      refine ⟨[i1, i2], hrecon, by simp [v1, v2], ?_, ?_⟩
      · intro x hx
        rcases List.mem_cons.mp hx with rfl | hx
        · exact (mem_nonzeroItems m1).1
        · simp only [List.mem_singleton] at hx
          exact hx ▸ (mem_nonzeroItems m2).1
      · simp only [runOp]
        rw [find_subset_product_eq, hq]
        exact congrArg Except.ok hrecon
    | none =>
      rw [hq] at h
      cases hq3 : (triplesList (nonzeroValues data)).find? (ppred3 t tol) with
      | none => rw [hq3] at h; exact absurd h (by simp)
      | some q =>
        rw [hq3] at h
        simp only [Option.map_some', Option.some.injEq] at h
        subst h
        obtain ⟨a, q2⟩ := q
        obtain ⟨b, c⟩ := q2
        rcases triplesList_pairs (List.mem_of_find?_eq_some hq3) with ⟨hab, hac, hbc⟩
        have ha : a ≠ 0 := mem_nonzeroValues (pairsList_mem hab).1
        have hb : b ≠ 0 := mem_nonzeroValues (pairsList_mem hab).2
        have hc : c ≠ 0 := mem_nonzeroValues (pairsList_mem hbc).2
        rcases reconGo_triple_pos (ppred3 t tol)
            (fun x y z => ppred3_swap12 t tol x y z)
            (fun x y z => ppred3_swap23 t tol x y z)
            (nonzeroItems data) a b c [] hq3 with
          ⟨i1, i2, i3, m1, m2, m3, v1, v2, v3, heq⟩
        have hrecon : reconstruct_items data [a, b, c] = some [i1, i2, i3] := by
          rw [reconstruct_items_nonzero data [a, b, c] ?_]
          · simp only [reconstruct_items]
            simpa using heq
          · intro v hv
            rcases List.mem_cons.mp hv with rfl | hv
            · exact ha
            · rcases List.mem_cons.mp hv with rfl | hv
              · exact hb
              · simp only [List.mem_singleton] at hv
                exact hv ▸ hc
        refine ⟨[i1, i2, i3], hrecon, by simp [v1, v2, v3], ?_, ?_⟩
        · intro x hx
          rcases List.mem_cons.mp hx with rfl | hx
          · exact (mem_nonzeroItems m1).1
          · rcases List.mem_cons.mp hx with rfl | hx
            · exact (mem_nonzeroItems m2).1
            · simp only [List.mem_singleton] at hx
              exact hx ▸ (mem_nonzeroItems m3).1
        · simp only [runOp]
          rw [find_subset_product_eq, hq, hq3]
          exact congrArg Except.ok hrecon
  | quotient =>
    simp only [handed] at h
    by_cases htol : tol < 0
    · rw [if_pos htol] at h
      exact absurd h (by simp)
    · rw [if_neg htol] at h
      cases hq : (pairsList ((nonzeroItems data).map Item.value)).find? (qpred t tol) with
      | none => rw [hq] at h; exact absurd h (by simp)
      | some q =>
        rw [hq] at h
        simp only [Option.map_some', Option.some.injEq] at h
        subst h
        obtain ⟨a, b⟩ := q
        rcases reconGo_pair_pos (qpred t tol) (qpred_symm t tol) (nonzeroItems data)
            a b [] hq with ⟨i1, i2, m1, m2, v1, v2, heq⟩
        have hrecon : reconstruct_items (nonzeroItems data) [a, b] = some [i1, i2] := by
          simp only [reconstruct_items]
          simpa using heq
        refine ⟨[i1, i2], hrecon, by simp [v1, v2], ?_, ?_⟩
        · intro x hx
          rcases List.mem_cons.mp hx with rfl | hx
          · exact (mem_nonzeroItems m1).1
          · simp only [List.mem_singleton] at hx
            exact hx ▸ (mem_nonzeroItems m2).1
        · simp only [runOp]
          rw [find_subset_quotient, quotGo_eq _ _ _ (le_of_not_lt htol), hq]
          exact congrArg Except.ok hrecon

/-- Witness for C2: on the store `[3, 5]` with target `2` the difference
strategy hands `[3, 5]` to Reconstruction, which returns the matching items
positionally. -/
theorem spec_C2_witness :
    handed [⟨3, "A", 1⟩, ⟨5, "A", 2⟩] 2 0 Op.difference = some [3, 5] ∧
    ∃ res, reconstruct_items
        (reconTarget [⟨3, "A", 1⟩, ⟨5, "A", 2⟩] Op.difference) [3, 5] = some res ∧
      res.map Item.value = [3, 5] ∧
      (∀ x ∈ res, x ∈ ([⟨3, "A", 1⟩, ⟨5, "A", 2⟩] : List Item)) ∧
      runOp [⟨3, "A", 1⟩, ⟨5, "A", 2⟩] Op.difference 2 0 = Except.ok (some res) := by
  have hhand : handed [⟨3, "A", 1⟩, ⟨5, "A", 2⟩] 2 0 Op.difference = some [3, 5] := by
    norm_num [handed, pairsList, dpred, rabs, List.find?]
  exact ⟨hhand, spec_C2_reconstruction _ 2 0 Op.difference _ hhand⟩

/-- C8: every item of every match result returned by the orchestrator, for
any operation, is an element of the supplied Item Store. -/
theorem spec_C8_items_from_store (data : List Item) (op : Op) (tol : ℚ)
    (targets : List ℚ) (results : List (ℚ × List Item))
    (h : find_subsets data targets op tol = Except.ok results) :
    ∀ r ∈ results, ∀ x ∈ r.2, x ∈ data := by
  intro r hr x hx
  rw [find_subsets_ok data op tol targets results h] at hr
  rcases List.mem_filterMap.mp hr with ⟨t, _, hf⟩
  cases hro : runOp data op t tol with
  | error e => rw [hro] at hf; simp at hf
  | ok subset =>
    rw [hro] at hf
    cases subset with
    | none => simp at hf
    | some l =>
      by_cases hl : l.isEmpty
      · simp [hl] at hf
      · have hf' : some (t, l) = some r := by simpa [hl] using hf
        have hr' : (t, l) = r := Option.some.inj hf'
        subst hr'
        exact runOp_mem hro x hx

/-- Witness for C8: a quotient search over `[4, 12]` with target `3`
returns one match whose items all come from the store. -/
theorem spec_C8_witness :
    find_subsets [⟨4, "A", 1⟩, ⟨12, "B", 2⟩] [3] Op.quotient (1/100)
      = Except.ok [(3, [⟨4, "A", 1⟩, ⟨12, "B", 2⟩])] ∧
    ∀ r ∈ [((3 : ℚ), ([⟨4, "A", 1⟩, ⟨12, "B", 2⟩] : List Item))], ∀ x ∈ r.2,
      x ∈ ([⟨4, "A", 1⟩, ⟨12, "B", 2⟩] : List Item) := by
  have hrun : find_subsets [⟨4, "A", 1⟩, ⟨12, "B", 2⟩] [3] Op.quotient (1/100)
      = Except.ok [(3, [⟨4, "A", 1⟩, ⟨12, "B", 2⟩])] := by
    norm_num [find_subsets, runOp, find_subset_quotient, quotGo, isclose,
      nonzeroItems, List.filter, pairsList, rabs, rmax, reconstruct_items,
      reconGo, removeFirst, truthy]
  exact ⟨hrun, spec_C8_items_from_store _ _ _ _ _ hrun⟩

/-- C10 counterexample: with a strictly negative tolerance (`-1/2`) and a
negative target (`-10`), the product search still returns a match — the
threshold `tolerance * target` is positive — refuting the claim that the
product search never matches under a negative tolerance. -/
theorem spec_C10_counterexample :
    (-(1 : ℚ)/2) < 0 ∧
    find_subset_product [⟨-10, "A", 1⟩, ⟨1, "A", 2⟩] (-10) (-(1 : ℚ)/2)
      = some [⟨-10, "A", 1⟩, ⟨1, "A", 2⟩] := by
  constructor
  · norm_num
  · norm_num [find_subset_product, prodPairsGo, nonzeroValues, nonzeroItems,
      List.filter, pairsList, ppred, rabs, reconstruct_items, reconGo, removeFirst]

/-- C10 (amended): for every tolerance strictly below zero, the quotient
search on a store with at least two nonzero-valued items raises an error
(the relative-closeness test rejects a negative relative tolerance) instead
of reporting no-match, unlike the sum and difference searches, which simply
never match under a negative tolerance (the product search, by contrast,
can still match when `tolerance * target` is non-negative). -/
theorem spec_C10_amended (data : List Item) (t tol : ℚ) (htol : tol < 0) :
    (2 ≤ (nonzeroItems data).length →
      find_subset_quotient data t tol = Except.error ()) ∧
    find_subset_sum data t tol = none ∧
    find_subset_difference data t tol = none := by
  refine ⟨?_, ?_, ?_⟩
  · intro hlen
    rw [find_subset_quotient]
    have hlen' : 2 ≤ ((nonzeroItems data).map Item.value).length := by
      rwa [List.length_map]
    rcases pairsList_ne_nil hlen' with ⟨q, ps, hps⟩
    rw [hps]
    exact quotGo_neg _ _ _ htol q ps
  · rw [find_subset_sum_none_iff]
    rintro ⟨l, _, _, hcl⟩
    have h0 : (0 : ℚ) ≤ rabs (sumVals l - t) := rabs_nonneg _
    linarith
  · have hnone : (pairsList (data.map Item.value)).find? (dpred t tol) = none := by
      rw [List.find?_eq_none]
      intro q _
      simp only [dpred, decide_eq_true_eq]
      exact not_le.mpr (lt_of_lt_of_le htol (rabs_nonneg _))
    rw [find_subset_difference, diffGo_eq, hnone]

/-- Witness for the amended C10: tolerance `-1` on the store `[2, 6]` makes
the quotient search raise while sum and difference report no-match. -/
theorem spec_C10_witness :
    (-1 : ℚ) < 0 ∧ 2 ≤ (nonzeroItems [⟨2, "A", 1⟩, ⟨6, "B", 2⟩]).length ∧
    find_subset_quotient [⟨2, "A", 1⟩, ⟨6, "B", 2⟩] 3 (-1) = Except.error () ∧
    find_subset_sum [⟨2, "A", 1⟩, ⟨6, "B", 2⟩] 3 (-1) = none ∧
    find_subset_difference [⟨2, "A", 1⟩, ⟨6, "B", 2⟩] 3 (-1) = none := by
  have hlen : 2 ≤ (nonzeroItems [⟨2, "A", 1⟩, ⟨6, "B", 2⟩]).length := by
    norm_num [nonzeroItems, List.filter]
  exact ⟨by norm_num, hlen,
    (spec_C10_amended _ 3 (-1) (by norm_num)).1 hlen,
    (spec_C10_amended _ 3 (-1) (by norm_num)).2.1,
    (spec_C10_amended _ 3 (-1) (by norm_num)).2.2⟩
